import Mathlib

/- Verification development for the nowdub dubbing pipeline.

   Shallow embedding of the timing-reconciliation and audio-assembly code:
   the per-segment rate-fitting synthesizer and the timing-debt timeline
   assembler (generateTTSSegments / generateTTSWithTiming in
   lib/tts-generator.ts), the TTS cache key (getCacheKey in
   lib/tts-cache.ts) and the atempo-chain speed adjustment
   (adjustAudioSpeed in lib/audio-processor.ts).

   Times, durations and speaking rates are modelled as exact rationals.
   External effects are oracle parameters: the measured duration reported
   by ffprobe for audio rendered at a given speaking rate is a function
   argument, the trailing-silence trim is an optional measured duration
   (none models a failed ffmpeg call), and the SHA-256-of-JSON cache hash
   is an abstract function argument. -/

namespace Nowdub

/-- Model of the JavaScript default `x || d` for an optional string field:
the default applies when the field is absent or is the empty string (the
empty string is falsy in JavaScript). -/
def jsOrStr (x : Option String) (d : String) : String :=
  match x with
  | none => d
  | some s => if s = ("") then d else s

/-- Model of the JavaScript default `x || d` for an optional numeric
field: the default applies when the field is absent or is 0 (0 is falsy
in JavaScript). -/
def jsOrNum (x : Option ℚ) (d : ℚ) : ℚ :=
  match x with
  | none => d
  | some v => if v = 0 then d else v

/-- Characters treated as whitespace; model of the regex class used by
`trim()` and `replace(/\s+/g, ' ')` in tts-cache.ts. -/
def isWs (c : Char) : Bool := c.isWhitespace

/-- Collapse every maximal whitespace run to one space, the model of
`.replace(/\s+/g, ' ')`; the Boolean records whether the previous
character was whitespace. -/
def collapseWsGo : Bool → List Char → List Char
  | _, [] => []
  | prevWs, c :: rest =>
    if isWs c then
      if prevWs then collapseWsGo true rest
      else ' ' :: collapseWsGo true rest
    else c :: collapseWsGo false rest

/-- Model of normalizeText in tts-cache.ts:
`text.trim().replace(/\s+/g, ' ').toLowerCase()`. -/
def normalizeText (s : String) : String :=
  let trimmed := ((s.toList.dropWhile isWs).reverse.dropWhile isWs).reverse
  String.mk ((collapseWsGo false trimmed).map Char.toLower)

/-- Model of TTSOptions from lib/types.ts; every field is optional in the
TypeScript interface. -/
structure TTSOptions where
  languageCode : Option String
  voiceName : Option String
  audioEncoding : Option String
  speakingRate : Option ℚ
  pitch : Option ℚ

/-- Fields of the record serialized and hashed by getCacheKey in
tts-cache.ts; the speaking rate is deliberately absent from it. -/
structure CacheKeyData where
  text : String
  languageCode : String
  voiceName : String
  audioEncoding : String
  pitch : ℚ
deriving DecidableEq

/-- Model of getCacheKey in tts-cache.ts: normalize the text, apply the
JavaScript `||` defaults to the options, and hash the resulting record.
The composition of JSON.stringify with the SHA-256 hex digest is the
abstract pure function `hash`. -/
def getCacheKey (hash : CacheKeyData → String) (text : String)
    (options : Option TTSOptions) : String :=
  hash
    { text := normalizeText text
      languageCode := jsOrStr (options.bind TTSOptions.languageCode) ("pl-PL")
      voiceName := jsOrStr (options.bind TTSOptions.voiceName) ("pl-PL-Standard-G")
      audioEncoding := jsOrStr (options.bind TTSOptions.audioEncoding) ("MP3")
      pitch := jsOrNum (options.bind TTSOptions.pitch) 0 }

/-- Constant syncThreshold = 0.5 from generateTTSSegments. -/
def syncThreshold : ℚ := 1/2

/-- Constant maxSpeakingRate = 2.0 from generateTTSSegments. -/
def maxSpeakingRate : ℚ := 2

/-- Constant minSpeakingRate = 0.25 from generateTTSSegments. -/
def minSpeakingRate : ℚ := 1/4

/-- Model of the clamping of a proposed speaking rate:
`Math.max(minSpeakingRate, Math.min(maxSpeakingRate, newSpeakingRate))`. -/
def clampRate (r : ℚ) : ℚ := max minSpeakingRate (min maxSpeakingRate r)

/-- Model of the one-time gap extension in generateTTSSegments: after the
first render, when the audio is longer than the base slot and a following
segment exists, the effective expected duration is extended by
`min(gapToNextSegment, extraTimeNeeded)`, but only when the gap and the
used portion both exceed 0.01 s. -/
def extendedExpected (baseExpected actual gapToNext : ℚ)
    (hasNext : Bool) : ℚ :=
  if baseExpected < actual ∧ hasNext = true ∧ 1/100 < gapToNext ∧
      1/100 < min gapToNext (actual - baseExpected) then
    baseExpected + min gapToNext (actual - baseExpected)
  else baseExpected

/-- Outcome of the per-segment fitting loop: final speaking rate, final
measured duration, effective expected duration, and how many renders
(calls of generateTTS) were performed. -/
structure FitResult where
  rate : ℚ
  actual : ℚ
  expected : ℚ
  renders : ℕ
deriving DecidableEq

/-- Iterations of the while-loop of generateTTSSegments after the first
one: `fuel` is the number of loop iterations still allowed (maxAttempts
minus the attempts already used), `rate` the current speaking rate,
`lastActual` the duration measured by the previous render, `renders` the
number of renders done so far.  Each iteration renders at the current
rate, measures, and either stops (close enough, audio shorter than
expected, degenerate expected duration, or clamped rate at the maximum
while still too long) or re-runs at the clamped increased rate. -/
def fitLoopGo (dur : ℚ → ℚ) (expected : ℚ) :
    ℕ → ℚ → ℚ → ℕ → FitResult
  | 0, rate, lastActual, renders => ⟨rate, lastActual, expected, renders⟩
  | fuel + 1, rate, _, renders =>
    let actual := dur rate
    if actual - expected ≤ syncThreshold ∨ expected ≤ 0 ∨
        actual - expected < 0 then
      ⟨rate, actual, expected, renders + 1⟩
    else
      let clamped := clampRate (rate * (actual / expected))
      if maxSpeakingRate ≤ clamped ∧ expected < actual then
        ⟨rate, actual, expected, renders + 1⟩
      else
        fitLoopGo dur expected fuel clamped actual (renders + 1)

/-- Model of the whole fitting loop of generateTTSSegments (maxAttempts =
3): the first iteration renders at the base rate, applies the one-time
gap extension to obtain the effective expected duration, then continues
exactly as fitLoopGo with at most two further iterations.  `dur r` is the
measured duration of the audio rendered at speaking rate `r`. -/
def runSegmentFit (dur : ℚ → ℚ) (baseExpected gapToNext : ℚ)
    (hasNext : Bool) (baseRate : ℚ) : FitResult :=
  let actual := dur baseRate
  let expected := extendedExpected baseExpected actual gapToNext hasNext
  if actual - expected ≤ syncThreshold ∨ expected ≤ 0 ∨
      actual - expected < 0 then
    ⟨baseRate, actual, expected, 1⟩
  else
    let clamped := clampRate (baseRate * (actual / expected))
    if maxSpeakingRate ≤ clamped ∧ expected < actual then
      ⟨baseRate, actual, expected, 1⟩
    else
      fitLoopGo dur expected 2 clamped actual 1

/-- Model of SubtitleSegment from lib/types.ts (`{start, end, text}`);
the end field is called endTime because `end` is reserved in Lean. -/
structure SubtitleSegment where
  start : ℚ
  endTime : ℚ
  text : String
deriving DecidableEq

/-- Per-segment external measurements: `dur r` is the duration ffprobe
reports for the audio rendered at speaking rate `r`; `trim` is the
duration after trimTrailingSilence (none when the ffmpeg call fails);
`firstCacheHit` is whether the first render hit the cache. -/
structure SegOracle where
  dur : ℚ → ℚ
  trim : Option ℚ
  firstCacheHit : Bool

/-- Record pushed onto `results` by generateTTSSegments for one segment
(TTSSegmentResultWithOverflow without the file path). -/
structure SegResult where
  cacheHit : Bool
  overflow : ℚ
  expectedDuration : ℚ
  actualDuration : ℚ
deriving DecidableEq

/-- Expected duration recorded for an empty-text segment:
`segment?.end && segment?.start ? segment.end - segment.start : 0.1`.
The JavaScript `&&` is falsy when either time equals 0, so the 0.1
fallback also fires when a time is 0. -/
def emptySegExpected (seg : SubtitleSegment) : ℚ :=
  if seg.endTime ≠ 0 ∧ seg.start ≠ 0 then seg.endTime - seg.start else 1/10

/-- Duration of the silence file written for an empty-text segment:
`insertSilence(outputPath, Math.max(0.1, expectedDuration))`. -/
def emptySegSilence (seg : SubtitleSegment) : ℚ :=
  max (1/10) (emptySegExpected seg)

/-- Blank test of generateTTSSegments:
`!segment.text || segment.text.trim().length === 0`. -/
def isBlankText (s : String) : Bool := s.toList.all isWs

/-- Nominal gap between a segment and its successor,
`nextSegment.start - segment.end`; irrelevant (0) when there is none. -/
def segGap (seg : SubtitleSegment) (next : Option SubtitleSegment) : ℚ :=
  match next with
  | some n => n.start - seg.endTime
  | none => 0

/-- Fitting-loop result for one non-blank segment, wiring the segment
times and the successor gap into runSegmentFit. -/
def segFit (o : SegOracle) (baseRate : ℚ) (seg : SubtitleSegment)
    (next : Option SubtitleSegment) : FitResult :=
  runSegmentFit o.dur (seg.endTime - seg.start) (segGap seg next)
    next.isSome baseRate

/-- Duration kept after the trailing-silence trim fallback: the trimmed
audio replaces the original only when trimming succeeded and the trimmed
duration is strictly shorter (`trimmedDuration < actualDuration`); a
failed trim keeps the original. -/
def afterTrim (trim : Option ℚ) (actual : ℚ) : ℚ :=
  match trim with
  | none => actual
  | some td => if td < actual then td else actual

/-- Processing of one segment by generateTTSSegments: an empty-text
segment becomes a cache-hit silence record with zero overflow; otherwise
the fitting loop runs, followed by the trailing-silence trim fallback
when the result is still over the sync threshold, and the overflow is
recorded against the effective expected duration. -/
def processSegment (o : SegOracle) (baseRate : ℚ) (seg : SubtitleSegment)
    (next : Option SubtitleSegment) : SegResult :=
  if isBlankText seg.text then
    { cacheHit := true
      overflow := 0
      expectedDuration := emptySegExpected seg
      actualDuration := emptySegExpected seg }
  else
    let fit := segFit o baseRate seg next
    let actual :=
      if syncThreshold < fit.actual - fit.expected then
        afterTrim o.trim fit.actual
      else fit.actual
    { cacheHit := o.firstCacheHit
      overflow := actual - fit.expected
      expectedDuration := fit.expected
      actualDuration := actual }

/-- Indexed traversal of generateTTSSegments: one result is pushed for
the segment at index i, whose gap extension looks at the next segment. -/
def generateTTSSegmentsGo (oracle : ℕ → SegOracle) (baseRate : ℚ) :
    ℕ → List SubtitleSegment → List SegResult
  | _, [] => []
  | i, seg :: rest =>
    processSegment (oracle i) baseRate seg rest.head? ::
      generateTTSSegmentsGo oracle baseRate (i + 1) rest

/-- Model of generateTTSSegments over a segment list: the per-index
oracle supplies each segment's external measurements. -/
def generateTTSSegments (oracle : ℕ → SegOracle) (baseRate : ℚ)
    (segments : List SubtitleSegment) : List SegResult :=
  generateTTSSegmentsGo oracle baseRate 0 segments

/-- Audio pieces appended to `audioWithSilence` by the assembly pass of
generateTTSWithTiming: silence files and the per-segment speech files
(identified by segment index, with their measured duration). -/
inductive Piece where
  | silence (duration : ℚ)
  | speech (index : ℕ) (duration : ℚ)
deriving DecidableEq

/-- Running state of the assembly pass: emitted pieces, the timingDebt
ledger and the actualTimelinePosition cursor. -/
structure AsmState where
  pieces : List Piece
  debt : ℚ
  pos : ℚ
deriving DecidableEq

/-- Initial assembler state: leading silence when the first segment
starts later than 0.001 s
(`segments.length > 0 && segments[0].start > 0.001`). -/
def asmInit (segments : List SubtitleSegment) : AsmState :=
  match segments with
  | [] => ⟨[], 0, 0⟩
  | seg :: _ =>
    if 1/1000 < seg.start then ⟨[Piece.silence seg.start], 0, seg.start⟩
    else ⟨[], 0, 0⟩

/-- Pre-segment alignment of generateTTSWithTiming: when the position is
more than 0.01 s before the segment's nominal start, insert alignment
silence and move to the nominal start; when it is more than 0.01 s past
it, the segment starts early and the overshoot is added to the debt. -/
def asmAlign (st : AsmState) (seg : SubtitleSegment) : AsmState :=
  let g := seg.start - st.pos
  if 1/100 < g then ⟨st.pieces ++ [Piece.silence g], st.debt, seg.start⟩
  else if g < -(1/100) then ⟨st.pieces, st.debt + (-g), st.pos⟩
  else st

/-- Appending the speech piece of segment i and advancing the position by
its measured duration. -/
def asmSpeech (st : AsmState) (i : ℕ) (res : SegResult) : AsmState :=
  ⟨st.pieces ++ [Piece.speech i res.actualDuration], st.debt,
    st.pos + res.actualDuration⟩

/-- Adjusted gap and remaining debt for a needed gap: when the debt
exceeds 0.01 s, up to `min(timingDebt, gapNeeded - 0.01)` of it is paid
back by shortening the gap, provided the payment itself exceeds 0.01 s. -/
def asmPayDebt (debt gapNeeded : ℚ) : ℚ × ℚ :=
  if 1/100 < debt then
    if 1/100 < min debt (gapNeeded - 1/100) then
      (gapNeeded - min debt (gapNeeded - 1/100),
        debt - min debt (gapNeeded - 1/100))
    else (gapNeeded, debt)
  else (gapNeeded, debt)

/-- Gap handling after segment i: nothing when already past the next
segment's start (or within 0.01 s of it); otherwise the debt-shortened
silence is emitted when it still exceeds 0.01 s. -/
def asmGap (st : AsmState) (next : Option SubtitleSegment) : AsmState :=
  match next with
  | none => st
  | some nxt =>
    let gapNeeded := nxt.start - st.pos
    if gapNeeded < -(1/100) then st
    else if 1/100 < gapNeeded then
      let paid := asmPayDebt st.debt gapNeeded
      if 1/100 < paid.1 then
        ⟨st.pieces ++ [Piece.silence paid.1], paid.2, st.pos + paid.1⟩
      else ⟨st.pieces, paid.2, st.pos⟩
    else st

/-- One iteration of the assembly loop of generateTTSWithTiming for
segment i: pre-segment alignment silence or debt accrual, the speech
piece itself, then the (possibly debt-shortened) gap before the next
segment. -/
def asmStep (st : AsmState) (i : ℕ) (seg : SubtitleSegment)
    (res : SegResult) (next : Option SubtitleSegment) : AsmState :=
  asmGap (asmSpeech (asmAlign st seg) i res) next

/-- Sequential fold of asmStep over the (segment, result) pairs, looking
one segment ahead for the gap computation. -/
def runAssemblyGo : AsmState → ℕ → List (SubtitleSegment × SegResult) → AsmState
  | st, _, [] => st
  | st, i, p :: rest =>
    runAssemblyGo (asmStep st i p.1 p.2 (rest.head?.map Prod.fst)) (i + 1) rest

/-- Model of the assembly pass of generateTTSWithTiming: initial leading
silence, then the sequential per-segment loop over the rendered results. -/
def runAssembly (segments : List SubtitleSegment)
    (results : List SegResult) : AsmState :=
  runAssemblyGo (asmInit segments) 0 (segments.zip results)

/-- Model of the atempo-stage computation of adjustAudioSpeed in
lib/audio-processor.ts: the while-loop that keeps splitting off factors
of 2 (above range) or 0.5 (below range) until the remaining factor is a
single in-range stage or is within 0.01 of 1.0; `fuel` bounds the number
of iterations and `none` models exhausting it (the source loop would
still be running). -/
def adjustAudioSpeedFilters : ℕ → ℚ → Option (List ℚ)
  | 0, _ => none
  | fuel + 1, remaining =>
    if |remaining - 1| ≤ 1/100 then some []
    else if 2 < remaining then
      (adjustAudioSpeedFilters fuel (remaining / 2)).map (fun l => 2 :: l)
    else if remaining < 1/2 then
      (adjustAudioSpeedFilters fuel (remaining / (1/2))).map
        (fun l => (1/2) :: l)
    else some [remaining]

/-- Helper: the fitting loop never changes the effective expected
duration fixed after the first iteration. -/
theorem fitLoopGo_expected_eq (dur : ℚ → ℚ) (expected : ℚ) :
    ∀ fuel rate lastActual renders,
      (fitLoopGo dur expected fuel rate lastActual renders).expected
        = expected := by
  intro fuel
  induction fuel with
  | zero => intro rate lastActual renders; rfl
  | succ k ih =>
    intro rate lastActual renders
    simp only [fitLoopGo]
    split
    · rfl
    · split
      · rfl
      · exact ih _ _ _

/-- Helper: each fitting-loop iteration performs one render, so the
render count grows by at most the remaining fuel. -/
theorem fitLoopGo_renders_le (dur : ℚ → ℚ) (expected : ℚ) :
    ∀ fuel rate lastActual renders,
      (fitLoopGo dur expected fuel rate lastActual renders).renders
        ≤ renders + fuel := by
  intro fuel
  induction fuel with
  | zero => intro rate lastActual renders; simp [fitLoopGo]
  | succ k ih =>
    intro rate lastActual renders
    simp only [fitLoopGo]
    split
    · simp
    · split
      · simp
      · calc (fitLoopGo dur expected k _ _ (renders + 1)).renders
            ≤ (renders + 1) + k := ih _ _ _
          _ ≤ renders + (k + 1) := by omega

/-- Helper: the fitting loop never lowers the speaking rate.  When an
iteration continues, the proposed rate is the current positive rate
multiplied by a ratio strictly greater than one, and the clamp cannot
bring it below the current rate because continuing requires the clamped
value to stay below the maximum. -/
theorem fitLoopGo_rate_mono (dur : ℚ → ℚ) (expected : ℚ) :
    ∀ fuel rate lastActual renders, 0 < rate →
      rate ≤ (fitLoopGo dur expected fuel rate lastActual renders).rate := by
  intro fuel
  induction fuel with
  | zero => intro rate lastActual renders h; simp [fitLoopGo]
  | succ k ih =>
    intro rate lastActual renders hr
    simp only [fitLoopGo]
    split
    · simp
    · next h1 =>
      split
      · simp
      · next h2 =>
        push_neg at h1
        obtain ⟨hth, hexp, hge⟩ := h1
        have hlt : expected < dur rate := by
          have : syncThreshold < dur rate - expected := hth
          have hst : (0:ℚ) < syncThreshold := by norm_num [syncThreshold]
          linarith
        have hclamp2 : clampRate (rate * (dur rate / expected)) <
            maxSpeakingRate := by
          by_contra hcon
          exact h2 ⟨le_of_not_lt hcon, hlt⟩
        have hratio : 1 < dur rate / expected :=
          (one_lt_div hexp).mpr hlt
        have hnr : rate < rate * (dur rate / expected) := by
          nlinarith
        have hmin : min maxSpeakingRate (rate * (dur rate / expected))
            = rate * (dur rate / expected) := by
          rcases min_lt_iff.mp
              (lt_of_le_of_lt (le_max_right minSpeakingRate _) hclamp2) with
            h | h
          · exact absurd h (lt_irrefl _)
          · exact min_eq_right h.le
        have hge2 : rate ≤ clampRate (rate * (dur rate / expected)) := by
          unfold clampRate
          rw [hmin]
          exact le_trans hnr.le (le_max_right _ _)
        have hpos2 : 0 < clampRate (rate * (dur rate / expected)) := by
          unfold clampRate
          have : (0:ℚ) < minSpeakingRate := by norm_num [minSpeakingRate]
          exact lt_of_lt_of_le this (le_max_left _ _)
        exact le_trans hge2 (ih _ _ _ hpos2)

/-- Helper: when the first render is already shorter than the base slot,
the whole fitting pass stops after that single render at the base rate
and the gap extension does not fire. -/
theorem runSegmentFit_fast (dur : ℚ → ℚ) (baseExpected gapToNext : ℚ)
    (hasNext : Bool) (baseRate : ℚ) (h : dur baseRate < baseExpected) :
    runSegmentFit dur baseExpected gapToNext hasNext baseRate
      = ⟨baseRate, dur baseRate, baseExpected, 1⟩ := by
  have hext : extendedExpected baseExpected (dur baseRate) gapToNext hasNext
      = baseExpected := by
    unfold extendedExpected
    rw [if_neg]
    rintro ⟨hlt, -⟩
    exact absurd hlt (not_lt.mpr h.le)
  simp only [runSegmentFit, hext]
  rw [if_pos]
  exact Or.inr (Or.inr (by linarith))

/-- Helper: the effective expected duration of the whole fitting pass is
the gap-extended one computed from the first render. -/
theorem runSegmentFit_expected (dur : ℚ → ℚ) (baseExpected gapToNext : ℚ)
    (hasNext : Bool) (baseRate : ℚ) :
    (runSegmentFit dur baseExpected gapToNext hasNext baseRate).expected
      = extendedExpected baseExpected (dur baseRate) gapToNext hasNext := by
  simp only [runSegmentFit]
  split
  · rfl
  · split
    · rfl
    · exact fitLoopGo_expected_eq _ _ _ _ _ _

/-- Helper: the fitting pass performs at most three renders. -/
theorem runSegmentFit_renders_le (dur : ℚ → ℚ) (baseExpected gapToNext : ℚ)
    (hasNext : Bool) (baseRate : ℚ) :
    (runSegmentFit dur baseExpected gapToNext hasNext baseRate).renders
      ≤ 3 := by
  simp only [runSegmentFit]
  split
  · simp
  · split
    · simp
    · have := fitLoopGo_renders_le dur
        (extendedExpected baseExpected (dur baseRate) gapToNext hasNext) 2
        (clampRate (baseRate * (dur baseRate /
          extendedExpected baseExpected (dur baseRate) gapToNext hasNext)))
        (dur baseRate) 1
      omega

/-- Helper: the head of a nonempty list survives appending on the right. -/
theorem head?_append_some {α : Type} {l : List α} (l2 : List α) {a : α}
    (h : l.head? = some a) : (l ++ l2).head? = some a := by
  cases l with
  | nil => simp at h
  | cons b t => simpa using h

/-- Helper: each assembly phase only appends pieces, so asmStep extends
the piece list of its input state. -/
theorem asmStep_pieces_extend (st : AsmState) (i : ℕ)
    (seg : SubtitleSegment) (res : SegResult)
    (next : Option SubtitleSegment) :
    ∃ tail, (asmStep st i seg res next).pieces = st.pieces ++ tail := by
  have h1 : ∃ t1, (asmAlign st seg).pieces = st.pieces ++ t1 := by
    simp only [asmAlign]
    split
    · exact ⟨_, rfl⟩
    · split
      · exact ⟨[], by simp⟩
      · exact ⟨[], by simp⟩
  obtain ⟨t1, ht1⟩ := h1
  have h2 : (asmSpeech (asmAlign st seg) i res).pieces
      = st.pieces ++ (t1 ++ [Piece.speech i res.actualDuration]) := by
    simp only [asmSpeech, ht1, List.append_assoc]
  have h3 : ∃ t3, (asmGap (asmSpeech (asmAlign st seg) i res) next).pieces
      = (asmSpeech (asmAlign st seg) i res).pieces ++ t3 := by
    cases next with
    | none => exact ⟨[], by simp [asmGap]⟩
    | some nxt =>
      simp only [asmGap]
      split
      · exact ⟨[], by simp⟩
      · split
        · split
          · exact ⟨_, rfl⟩
          · exact ⟨[], by simp⟩
        · exact ⟨[], by simp⟩
  obtain ⟨t3, ht3⟩ := h3
  exact ⟨t1 ++ [Piece.speech i res.actualDuration] ++ t3, by
    simp only [asmStep, ht3, h2, List.append_assoc]⟩

/-- Helper: a present head piece is preserved by one assembly step. -/
theorem asmStep_pieces_head (st : AsmState) (i : ℕ)
    (seg : SubtitleSegment) (res : SegResult)
    (next : Option SubtitleSegment) {a : Piece}
    (h : st.pieces.head? = some a) :
    (asmStep st i seg res next).pieces.head? = some a := by
  obtain ⟨tail, htail⟩ := asmStep_pieces_extend st i seg res next
  rw [htail]
  exact head?_append_some tail h

/-- Helper: a present head piece is preserved by the whole assembly fold. -/
theorem runAssemblyGo_pieces_head :
    ∀ (ps : List (SubtitleSegment × SegResult)) (st : AsmState) (i : ℕ)
      {a : Piece}, st.pieces.head? = some a →
      (runAssemblyGo st i ps).pieces.head? = some a := by
  intro ps
  induction ps with
  | nil => intro st i a h; exact h
  | cons p rest ih =>
    intro st i a h
    exact ih _ _ (asmStep_pieces_head _ _ _ _ _ h)

/-- Helper: debt payment never overdraws: the paid-back amount is capped
by the current debt, so the remaining debt stays nonnegative, and the
accrual branches only add nonnegative amounts. -/
theorem asmStep_debt_nonneg (st : AsmState) (i : ℕ)
    (seg : SubtitleSegment) (res : SegResult)
    (next : Option SubtitleSegment) (h : 0 ≤ st.debt) :
    0 ≤ (asmStep st i seg res next).debt := by
  have h1 : 0 ≤ (asmAlign st seg).debt := by
    simp only [asmAlign]
    split
    · exact h
    · split
      · next hg =>
        have hneg : (0:ℚ) < -(seg.start - st.pos) := by
          rw [neg_pos]
          calc seg.start - st.pos < -(1/100) := hg
            _ < 0 := by norm_num
        simp only
        linarith
      · exact h
  have h2 : 0 ≤ (asmSpeech (asmAlign st seg) i res).debt := h1
  have hpay : ∀ d g : ℚ, 0 ≤ d → 0 ≤ (asmPayDebt d g).2 := by
    intro d g hd
    simp only [asmPayDebt]
    split
    · split
      · simp only
        have := min_le_left d (g - 1/100)
        linarith
      · exact hd
    · exact hd
  cases next with
  | none => exact h2
  | some nxt =>
    simp only [asmStep, asmGap]
    split
    · exact h2
    · split
      · split
        · exact hpay _ _ h2
        · exact hpay _ _ h2
      · exact h2

/-- Helper: debt nonnegativity is an invariant of the whole assembly
fold. -/
theorem runAssemblyGo_debt_nonneg :
    ∀ (ps : List (SubtitleSegment × SegResult)) (st : AsmState) (i : ℕ),
      0 ≤ st.debt → 0 ≤ (runAssemblyGo st i ps).debt := by
  intro ps
  induction ps with
  | nil => intro st i h; exact h
  | cons p rest ih =>
    intro st i h
    exact ih _ _ (asmStep_debt_nonneg _ _ _ _ _ h)

/-- Helper: the initial assembler state carries zero debt. -/
theorem asmInit_debt (segments : List SubtitleSegment) :
    (asmInit segments).debt = 0 := by
  unfold asmInit
  split
  · rfl
  · split
    · rfl
    · rfl

/-- Helper: whenever the stage computation of adjustAudioSpeed finishes,
every emitted atempo stage lies in the native range of the filter and the
product of the stages reproduces the requested factor up to a residual
within 0.01 of 1. -/
theorem isSome_map_of_isSome {α β : Type} (f : α → β) {o : Option α}
    (h : o.isSome = true) : (o.map f).isSome = true := by
  cases o with
  | none => simp at h
  | some a => rfl

theorem adjustAudioSpeedFilters_sound :
    ∀ (fuel : ℕ) (r : ℚ) (l : List ℚ),
      adjustAudioSpeedFilters fuel r = some l →
      (∀ s ∈ l, 1/2 ≤ s ∧ s ≤ 2) ∧
        ∃ resid, |resid - 1| ≤ 1/100 ∧ l.prod * resid = r := by
  intro fuel
  induction fuel with
  | zero => intro r l h; simp [adjustAudioSpeedFilters] at h
  | succ k ih =>
    intro r l h
    rw [adjustAudioSpeedFilters] at h
    split at h
    · next h1 =>
      obtain rfl : ([] : List ℚ) = l := Option.some.inj h
      refine ⟨by simp, r, h1, by simp⟩
    · next h1 =>
      split at h
      · next h2 =>
        rw [Option.map_eq_some'] at h
        obtain ⟨l0, hl0, rfl⟩ := h
        obtain ⟨hrange, resid, hres, hprod⟩ := ih (r / 2) l0 hl0
        refine ⟨?_, resid, hres, ?_⟩
        · intro s hs
          rcases List.mem_cons.mp hs with rfl | hs
          · norm_num
          · exact hrange s hs
        · rw [List.prod_cons, mul_assoc, hprod]
          ring
      · next h2 =>
        split at h
        · next h3 =>
          rw [Option.map_eq_some'] at h
          obtain ⟨l0, hl0, rfl⟩ := h
          obtain ⟨hrange, resid, hres, hprod⟩ := ih (r / (1/2)) l0 hl0
          refine ⟨?_, resid, hres, ?_⟩
          · intro s hs
            rcases List.mem_cons.mp hs with rfl | hs
            · norm_num
            · exact hrange s hs
          · rw [List.prod_cons, mul_assoc, hprod]
            ring
        · next h3 =>
          obtain rfl : [r] = l := Option.some.inj h
          push_neg at h2 h3
          refine ⟨?_, 1, by norm_num, by simp⟩
          intro s hs
          rcases List.mem_cons.mp hs with rfl | hs
          · exact ⟨h3, h2⟩
          · simp at hs

/-- Helper: powers of two are at least one over the rationals. -/
theorem one_le_two_pow_rat (k : ℕ) : (1:ℚ) ≤ 2 ^ k := by
  induction k with
  | zero => norm_num
  | succ n ih =>
    rw [pow_succ]
    nlinarith

/-- Helper: the stage-splitting loop of adjustAudioSpeed terminates on
every positive factor: a factor bounded between 1/(2·2^k) and 2·2^k needs
at most k+1 iterations, because the above-range branch halves the factor
and the below-range branch doubles it. -/
theorem adjustAudioSpeedFilters_total :
    ∀ (k : ℕ) (r : ℚ), 0 < r → r ≤ 2 * 2 ^ k → 1 / (2 * 2 ^ k) ≤ r →
      (adjustAudioSpeedFilters (k + 1) r).isSome = true := by
  intro k
  induction k with
  | zero =>
    intro r hr hub hlb
    norm_num at hub hlb
    rw [adjustAudioSpeedFilters]
    split
    · simp
    · split
      · next h2 => exact absurd h2 (by linarith)
      · split
        · next h3 => exact absurd h3 (by linarith)
        · simp
  | succ k ih =>
    intro r hr hub hlb
    have hpk : (0:ℚ) < 2 ^ k := by positivity
    have h1k : (1:ℚ) ≤ 2 ^ k := one_le_two_pow_rat k
    rw [adjustAudioSpeedFilters]
    split
    · simp
    · split
      · next h2 =>
        apply isSome_map_of_isSome
        apply ih
        · linarith
        · rw [pow_succ] at hub
          linarith
        · have hb : (0:ℚ) < 2 * 2 ^ k := by positivity
          have h2k : (1:ℚ) ≤ 2 * 2 ^ k := by linarith
          have hle1 : (1:ℚ) / (2 * 2 ^ k) ≤ 1 := div_le_one_of_le h2k hb.le
          calc (1:ℚ) / (2 * 2 ^ k) ≤ 1 := hle1
            _ ≤ r / 2 := by linarith
      · next h2 =>
        split
        · next h3 =>
          apply isSome_map_of_isSome
          have hrw : r / (1/2) = 2 * r := by ring
          rw [hrw]
          have hpos0 : (0:ℚ) < 2 * 2 ^ k := by positivity
          have hpos1 : (0:ℚ) < 2 * 2 ^ (k + 1) := by positivity
          apply ih
          · linarith
          · linarith
          · rw [div_le_iff hpos0]
            rw [div_le_iff hpos1] at hlb
            have hps : ((2:ℚ) ^ (k + 1)) = 2 ^ k * 2 := pow_succ 2 k
            rw [hps] at hlb
            have hring : r * (2 * (2 ^ k * 2)) = 2 * r * (2 * 2 ^ k) := by
              ring
            linarith
        · rfl

/-- Helper: the indexed traversal emits one result per segment. -/
theorem generateTTSSegmentsGo_length (oracle : ℕ → SegOracle)
    (baseRate : ℚ) :
    ∀ (segs : List SubtitleSegment) (k : ℕ),
      (generateTTSSegmentsGo oracle baseRate k segs).length = segs.length := by
  intro segs
  induction segs with
  | nil => intro k; rfl
  | cons seg rest ih =>
    intro k
    simp only [generateTTSSegmentsGo, List.length_cons, ih]

/-- Helper: the i-th emitted result is exactly the processing of the i-th
segment with its successor as lookahead. -/
theorem generateTTSSegmentsGo_get? (oracle : ℕ → SegOracle)
    (baseRate : ℚ) :
    ∀ (segs : List SubtitleSegment) (k i : ℕ),
      (generateTTSSegmentsGo oracle baseRate k segs).get? i
        = (segs.get? i).map (fun s =>
            processSegment (oracle (k + i)) baseRate s (segs.get? (i + 1))) := by
  intro segs
  induction segs with
  | nil => intro k i; simp [generateTTSSegmentsGo]
  | cons seg rest ih =>
    intro k i
    cases i with
    | zero =>
      simp only [generateTTSSegmentsGo, List.get?_cons_zero,
        List.get?_cons_succ, Option.map_some', Nat.add_zero]
      rw [← List.get?_zero]
    | succ j =>
      simp only [generateTTSSegmentsGo, List.get?_cons_succ]
      rw [ih (k + 1) j]
      have harith : k + 1 + j = k + (j + 1) := by omega
      rw [harith]

/-- C1 counterexample: for a cue whose first render runs 1 s long but
whose idle gap to the next cue is only 0.005 s, the claim prescribes
extending the effective expected duration by min(gap, overrun) = 0.005 s,
yet the code skips the extension entirely because the gap is not above
its 0.01 s threshold. -/
theorem c1_counterexample :
    extendedExpected 1 2 (1/200) true ≠ 1 + min (1/200) (2 - 1) := by
  have hcond : ¬ ((1:ℚ) < 2 ∧ (true = true) ∧ (1:ℚ)/100 < 1/200 ∧
      (1:ℚ)/100 < min (1/200) (2 - 1)) := by
    rintro ⟨-, -, hg, -⟩
    norm_num at hg
  unfold extendedExpected
  rw [if_neg hcond]
  norm_num [min_def]

/-- C1 (amended): the fitting pass uses the gap-extended effective
expected duration; when the idle gap and the used portion
min(gap, actual − base) both exceed 0.01 s the extension adds exactly
min(gap, actual − base), otherwise the expected duration stays at the
base; in either case, for a nonnegative gap, the extended value never
exceeds base plus the original idle gap. -/
theorem c1_gap_extension_bound (dur : ℚ → ℚ)
    (baseExpected gapToNext baseRate : ℚ)
    (hlong : baseExpected < dur baseRate) :
    (runSegmentFit dur baseExpected gapToNext true baseRate).expected
        = extendedExpected baseExpected (dur baseRate) gapToNext true ∧
    (1/100 < gapToNext →
      1/100 < min gapToNext (dur baseRate - baseExpected) →
      extendedExpected baseExpected (dur baseRate) gapToNext true
        = baseExpected + min gapToNext (dur baseRate - baseExpected)) ∧
    (0 ≤ gapToNext →
      extendedExpected baseExpected (dur baseRate) gapToNext true
        ≤ baseExpected + gapToNext) := by
  refine ⟨runSegmentFit_expected _ _ _ _ _, ?_, ?_⟩
  · intro hg hm
    unfold extendedExpected
    rw [if_pos ⟨hlong, rfl, hg, hm⟩]
  · intro hg
    unfold extendedExpected
    split
    · have hmin := min_le_left gapToNext (dur baseRate - baseExpected)
      linarith
    · linarith

/-- C1 witness: a 3 s render in a 1 s slot with a 1 s idle gap extends
the effective expected duration to exactly 2 s, within the bound. -/
theorem c1_witness :
    (runSegmentFit (fun _ => (3:ℚ)) 1 1 true 1).expected
        = extendedExpected 1 3 1 true ∧
    extendedExpected 1 3 1 true = 1 + min 1 ((3:ℚ) - 1) ∧
    extendedExpected 1 3 1 true ≤ 1 + 1 := by
  have h := c1_gap_extension_bound (fun _ => 3) 1 1 1 (by norm_num)
  exact ⟨h.1, h.2.1 (by norm_num) (by norm_num [min_def]),
    h.2.2 (by norm_num)⟩

/-- C2: the timingDebt ledger of the assembly pass is never negative:
it is 0 initially, every asmStep preserves nonnegativity (in particular
for a result whose actual duration is below its expected duration, which
only triggers alignment silence, never negative debt), and hence the
whole pass keeps it nonnegative at every intermediate state. -/
theorem c2_debt_nonneg :
    (∀ segments results, 0 ≤ (runAssembly segments results).debt) ∧
    (∀ st i seg res next, 0 ≤ st.debt →
      0 ≤ (asmStep st i seg res next).debt) ∧
    (∀ st i ps, 0 ≤ st.debt → 0 ≤ (runAssemblyGo st i ps).debt) := by
  refine ⟨?_, asmStep_debt_nonneg, ?_⟩
  · intro segments results
    exact runAssemblyGo_debt_nonneg _ _ 0
      (le_of_eq (asmInit_debt segments).symm)
  · intro st i ps h
    exact runAssemblyGo_debt_nonneg ps st i h

/-- C2 witness: a two-cue assembly run ends with nonnegative debt, and a
step on a cue rendered shorter than expected (0.5 s instead of 1 s)
keeps zero debt nonnegative. -/
theorem c2_witness :
    0 ≤ (runAssembly [⟨0, 2, "a"⟩, ⟨3, 4, "b"⟩]
          [⟨false, 3/5, 2, 13/5⟩, ⟨false, 0, 1, 1⟩]).debt ∧
    0 ≤ (asmStep ⟨[], 0, 0⟩ 0 ⟨0, 1, "x"⟩ ⟨false, -(1/2), 1, 1/2⟩
          none).debt :=
  ⟨c2_debt_nonneg.1 _ _, c2_debt_nonneg.2.1 _ _ _ _ _ (le_refl 0)⟩

/-- C3 counterexample: a single cue starting at 0.0005 s (> 0) produces
no leading silence at all — the assembled piece list starts with the
speech piece — because the code's leading-silence condition is
start > 0.001, not start > 0 as claimed. -/
theorem c3_counterexample :
    0 < (1:ℚ)/2000 ∧
    (runAssembly [⟨1/2000, 1, "hi"⟩] [⟨false, 0, 1, 1⟩]).pieces
      = [Piece.speech 0 1] := by
  constructor
  · norm_num
  · norm_num [runAssembly, runAssemblyGo, asmInit, asmStep, asmGap,
      asmSpeech, asmAlign, List.zip]

/-- C3 (amended): for every cue list whose first cue starts strictly
later than 0.001 s, the assembler emits a leading silence piece of
exactly that start time as the first element of the piece list, before
any speech piece. -/
theorem c3_leading_silence (segments : List SubtitleSegment)
    (results : List SegResult) (s0 : SubtitleSegment)
    (hs : segments.head? = some s0) (h : 1/1000 < s0.start) :
    (runAssembly segments results).pieces.head?
      = some (Piece.silence s0.start) := by
  cases segments with
  | nil => simp at hs
  | cons seg rest =>
    obtain rfl : seg = s0 := by simpa using hs
    have hinit : (asmInit (seg :: rest)).pieces.head?
        = some (Piece.silence seg.start) := by
      simp only [asmInit]
      rw [if_pos h]
      rfl
    exact runAssemblyGo_pieces_head _ _ _ hinit

/-- C3 witness: a first cue starting at 1 s yields a leading 1 s silence
piece. -/
theorem c3_witness :
    (runAssembly [⟨1, 2, "hi"⟩] [⟨false, 0, 1, 1⟩]).pieces.head?
      = some (Piece.silence 1) :=
  c3_leading_silence [⟨1, 2, "hi"⟩] [⟨false, 0, 1, 1⟩] ⟨1, 2, "hi"⟩ rfl
    (by norm_num)

/-- C4: for a non-blank cue still over the 0.5 s sync threshold after
the fitting loop, the trailing-silence trim is attempted: a successful
trim is kept only when strictly shorter than the rendered audio,
otherwise the rendered audio stands, and a failed trim (oracle none)
falls back to the rendered audio while still producing the segment's
result (the job continues). -/
theorem c4_trim_fallback (o : SegOracle) (baseRate : ℚ)
    (seg : SubtitleSegment) (next : Option SubtitleSegment)
    (hblank : isBlankText seg.text = false)
    (hover : syncThreshold <
      (segFit o baseRate seg next).actual
        - (segFit o baseRate seg next).expected) :
    (∀ td, o.trim = some td → td < (segFit o baseRate seg next).actual →
      (processSegment o baseRate seg next).actualDuration = td) ∧
    (∀ td, o.trim = some td →
      ¬ td < (segFit o baseRate seg next).actual →
      (processSegment o baseRate seg next).actualDuration
        = (segFit o baseRate seg next).actual) ∧
    (o.trim = none →
      (processSegment o baseRate seg next).actualDuration
        = (segFit o baseRate seg next).actual) := by
  have hproc : (processSegment o baseRate seg next).actualDuration
      = afterTrim o.trim (segFit o baseRate seg next).actual := by
    simp only [processSegment, hblank]
    rw [if_neg (by simp)]
    simp only
    rw [if_pos hover]
  refine ⟨?_, ?_, ?_⟩
  · intro td htd hlt
    rw [hproc, htd]
    simp only [afterTrim]
    rw [if_pos hlt]
  · intro td htd hnlt
    rw [hproc, htd]
    simp only [afterTrim]
    rw [if_neg hnlt]
  · intro hn
    rw [hproc, hn]
    rfl

/-- C4 witness: a cue rendered 3 s long in a 1 s slot with a successful
1 s trim keeps the strictly shorter trimmed audio. -/
theorem c4_witness :
    (processSegment ⟨fun _ => 3, some 1, true⟩ 1 ⟨0, 1, "a"⟩
      none).actualDuration = 1 := by
  have hfit : segFit ⟨fun _ => 3, some 1, true⟩ 1 ⟨0, 1, "a"⟩ none
      = ⟨1, 3, 1, 1⟩ := by
    norm_num [segFit, runSegmentFit, extendedExpected, segGap, clampRate,
      syncThreshold, maxSpeakingRate, minSpeakingRate, min_def, max_def]
  have h := c4_trim_fallback ⟨fun _ => 3, some 1, true⟩ 1 ⟨0, 1, "a"⟩ none
    (by decide) (by rw [hfit]; norm_num [syncThreshold])
  refine h.1 1 rfl ?_
  rw [hfit]
  norm_num

/-- C5 (code bug): for the empty-text cue with window [0, 5] the code
writes a 0.1 s silence piece, not the claimed max(0.1, 5 − 0) = 5 s one,
because the JavaScript presence check `segment?.end && segment?.start`
treats the legitimate start time 0 as missing; the cue is still marked a
cache hit as claimed. -/
theorem c5_empty_cue_silence_eval :
    emptySegSilence ⟨0, 5, ("")⟩ = 1/10 ∧
    ¬ emptySegSilence ⟨0, 5, ("")⟩ = max (1/10) ((5:ℚ) - 0) ∧
    (processSegment ⟨fun _ => 0, none, false⟩ 1 ⟨0, 5, ("")⟩
      none).cacheHit = true := by
  refine ⟨?_, ?_, ?_⟩
  · norm_num [emptySegSilence, emptySegExpected, max_def]
  · norm_num [emptySegSilence, emptySegExpected, max_def]
  · norm_num [processSegment, isBlankText, isWs]

/-- C6: the cache key is a function of exactly the normalized text and
the defaulted language, voice, encoding and pitch options: any two calls
agreeing on those five values — with arbitrary, possibly different,
speaking rates — produce the same key. -/
theorem c6_cache_key_identity (hash : CacheKeyData → String)
    (t1 t2 : String) (o1 o2 : Option TTSOptions)
    (ht : normalizeText t1 = normalizeText t2)
    (hl : jsOrStr (o1.bind TTSOptions.languageCode) ("pl-PL")
        = jsOrStr (o2.bind TTSOptions.languageCode) ("pl-PL"))
    (hv : jsOrStr (o1.bind TTSOptions.voiceName) ("pl-PL-Standard-G")
        = jsOrStr (o2.bind TTSOptions.voiceName) ("pl-PL-Standard-G"))
    (he : jsOrStr (o1.bind TTSOptions.audioEncoding) ("MP3")
        = jsOrStr (o2.bind TTSOptions.audioEncoding) ("MP3"))
    (hp : jsOrNum (o1.bind TTSOptions.pitch) 0
        = jsOrNum (o2.bind TTSOptions.pitch) 0) :
    getCacheKey hash t1 o1 = getCacheKey hash t2 o2 := by
  unfold getCacheKey
  rw [ht, hl, hv, he, hp]

/-- C6 witness: a messy-cased, extra-whitespace text at speaking rate 2
and its normalized form at speaking rate 1 (with explicitly spelled
default language and zero pitch) get the same cache key. -/
theorem c6_witness :
    getCacheKey (fun d => d.text) "  Mixed  CASE text "
        (some ⟨none, none, none, some 2, none⟩)
      = getCacheKey (fun d => d.text) "mixed case text"
        (some ⟨some ("pl-PL"), none, none, some 1, some 0⟩) :=
  c6_cache_key_identity _ _ _ _ _ (by decide) (by decide) (by decide)
    (by decide) (by decide)

/-- C7: a first render at rate 1.0 that is already shorter than the base
expected duration terminates the fitting pass at once (one render, final
rate 1.0), and, in general, the fitting loop never lowers a positive
speaking rate across its iterations. -/
theorem c7_no_slowdown (dur : ℚ → ℚ) (baseExpected gapToNext : ℚ)
    (hasNext : Bool) (hfast : dur 1 < baseExpected) :
    (runSegmentFit dur baseExpected gapToNext hasNext 1).rate = 1 ∧
    (runSegmentFit dur baseExpected gapToNext hasNext 1).renders = 1 ∧
    ∀ expected fuel rate lastActual renders, 0 < rate →
      rate ≤ (fitLoopGo dur expected fuel rate lastActual renders).rate := by
  have h := runSegmentFit_fast dur baseExpected gapToNext hasNext 1 hfast
  exact ⟨by rw [h], by rw [h], fun e => fitLoopGo_rate_mono dur e⟩

/-- C7 witness: a 0 s render in a 1 s slot keeps rate 1.0, and the loop
at rate 1 never returns a smaller rate. -/
theorem c7_witness :
    (runSegmentFit (fun _ => (0:ℚ)) 1 0 false 1).rate = 1 ∧
    1 ≤ (fitLoopGo (fun _ => (0:ℚ)) 1 0 1 0 0).rate := by
  have h := c7_no_slowdown (fun _ => 0) 1 0 false (by norm_num)
  exact ⟨h.1, h.2.2 1 0 1 0 0 (by norm_num)⟩

/-- C8: the fitting pass performs at most 3 renders; the clamp keeps any
proposed rate within [0.25, 2.0]; when the overrun exceeds the 0.5 s
sync threshold and the clamped product rate stays below the maximum, the
next iteration runs at exactly clamp(rate × actual/expected); and when
the clamped rate reaches the maximum 2.0 while the audio is still too
long, the loop stops keeping the current render. -/
theorem c8_fitting_loop (dur : ℚ → ℚ)
    (baseExpected gapToNext x expected rate lastActual : ℚ)
    (hasNext : Bool) (baseRate : ℚ) (fuel renders : ℕ) :
    (runSegmentFit dur baseExpected gapToNext hasNext baseRate).renders
        ≤ 3 ∧
    (minSpeakingRate ≤ clampRate x ∧ clampRate x ≤ maxSpeakingRate) ∧
    (syncThreshold < dur rate - expected → 0 < expected →
      ¬ maxSpeakingRate ≤ clampRate (rate * (dur rate / expected)) →
      fitLoopGo dur expected (fuel + 1) rate lastActual renders
        = fitLoopGo dur expected fuel
            (clampRate (rate * (dur rate / expected))) (dur rate)
            (renders + 1)) ∧
    (syncThreshold < dur rate - expected → 0 < expected →
      maxSpeakingRate ≤ clampRate (rate * (dur rate / expected)) →
      fitLoopGo dur expected (fuel + 1) rate lastActual renders
        = ⟨rate, dur rate, expected, renders + 1⟩) := by
  have hst : (0:ℚ) < syncThreshold := by norm_num [syncThreshold]
  refine ⟨runSegmentFit_renders_le dur baseExpected gapToNext hasNext
    baseRate, ⟨le_max_left _ _, ?_⟩, ?_, ?_⟩
  · unfold clampRate
    exact max_le (by norm_num [minSpeakingRate, maxSpeakingRate])
      (min_le_left _ _)
  · intro h1 h2 h3
    have hc1 : ¬ (dur rate - expected ≤ syncThreshold ∨ expected ≤ 0 ∨
        dur rate - expected < 0) := by
      push_neg
      exact ⟨h1, h2, by linarith⟩
    have hc2 : ¬ (maxSpeakingRate ≤
        clampRate (rate * (dur rate / expected)) ∧ expected < dur rate) :=
      fun hc => h3 hc.1
    simp only [fitLoopGo]
    rw [if_neg hc1, if_neg hc2]
  · intro h1 h2 h3
    have hc1 : ¬ (dur rate - expected ≤ syncThreshold ∨ expected ≤ 0 ∨
        dur rate - expected < 0) := by
      push_neg
      exact ⟨h1, h2, by linarith⟩
    have hlt : expected < dur rate := by linarith
    simp only [fitLoopGo]
    rw [if_neg hc1, if_pos ⟨h3, hlt⟩]

/-- C8 witness: a 3 s render in a 1 s slot stops at most 3 renders in;
a 1.8 s render re-runs at exactly clamp(1 × 1.8/1) = 1.8; a 3 s render
hits the clamp at 2.0 and keeps the current render. -/
theorem c8_witness :
    (runSegmentFit (fun _ => (3:ℚ)) 1 0 false 1).renders ≤ 3 ∧
    fitLoopGo (fun _ => (9:ℚ)/5) 1 1 1 0 1
      = fitLoopGo (fun _ => (9:ℚ)/5) 1 0
          (clampRate (1 * ((9:ℚ)/5 / 1))) (9/5) 2 ∧
    fitLoopGo (fun _ => (3:ℚ)) 1 1 1 0 1 = ⟨1, 3, 1, 2⟩ := by
  have hA := c8_fitting_loop (fun _ => (3:ℚ)) 1 0 1 1 1 0 false 1 0 1
  have hB := c8_fitting_loop (fun _ => (9:ℚ)/5) 1 0 1 1 1 0 false 1 0 1
  exact ⟨hA.1,
    hB.2.2.1 (by norm_num [syncThreshold]) (by norm_num)
      (by norm_num [clampRate, maxSpeakingRate, minSpeakingRate, min_def,
        max_def]),
    hA.2.2.2 (by norm_num [syncThreshold]) (by norm_num)
      (by norm_num [clampRate, maxSpeakingRate, minSpeakingRate, min_def,
        max_def])⟩

/-- C9: for every positive requested factor the stage-splitting loop of
adjustAudioSpeed terminates (some fuel suffices), every stage it emits
is within the native atempo range [0.5, 2.0], the product of the stages
equals the requested factor up to a residual within 0.01 of 1, at most
one stage is emitted when the factor is already in range, and a factor
within 0.01 of 1 emits no stage at all (the audio is copied). -/
theorem c9_rate_stretch (target : ℚ) (hpos : 0 < target) :
    ∃ fuel stages, adjustAudioSpeedFilters fuel target = some stages ∧
      (∀ s ∈ stages, 1/2 ≤ s ∧ s ≤ 2) ∧
      (∃ resid, |resid - 1| ≤ 1/100 ∧ stages.prod * resid = target) ∧
      (1/2 ≤ target → target ≤ 2 → stages.length ≤ 1) ∧
      (|target - 1| ≤ 1/100 → stages = []) := by
  obtain ⟨n1, hn1⟩ := pow_unbounded_of_one_lt target
    (by norm_num : (1:ℚ) < 2)
  obtain ⟨n2, hn2⟩ := pow_unbounded_of_one_lt (1 / target)
    (by norm_num : (1:ℚ) < 2)
  have hk1 : (2:ℚ) ^ n1 ≤ 2 ^ max n1 n2 :=
    pow_le_pow_right (by norm_num) (le_max_left n1 n2)
  have hk2 : (2:ℚ) ^ n2 ≤ 2 ^ max n1 n2 :=
    pow_le_pow_right (by norm_num) (le_max_right n1 n2)
  have hp : (0:ℚ) < 2 ^ max n1 n2 := by positivity
  have hub : target ≤ 2 * 2 ^ max n1 n2 := by linarith
  have hlb : 1 / (2 * 2 ^ max n1 n2) ≤ target := by
    have h3 : 1 / target < 2 ^ max n1 n2 := lt_of_lt_of_le hn2 hk2
    have h4 : 1 / (2 ^ max n1 n2) < target := by
      rw [div_lt_iff hp]
      rw [div_lt_iff hpos] at h3
      nlinarith
    have h2le : (2:ℚ) ^ max n1 n2 ≤ 2 * 2 ^ max n1 n2 := by linarith
    have h5 : (1:ℚ) / (2 * 2 ^ max n1 n2) ≤ 1 / (2 ^ max n1 n2) :=
      one_div_le_one_div_of_le hp h2le
    linarith
  have hsome := adjustAudioSpeedFilters_total (max n1 n2) target hpos hub hlb
  obtain ⟨stages, hst⟩ := Option.isSome_iff_exists.mp hsome
  obtain ⟨hrange, hprod⟩ :=
    adjustAudioSpeedFilters_sound (max n1 n2 + 1) target stages hst
  refine ⟨max n1 n2 + 1, stages, hst, hrange, hprod, ?_, ?_⟩
  · intro hlo hhi
    rw [adjustAudioSpeedFilters] at hst
    split at hst
    · obtain rfl : ([] : List ℚ) = stages := Option.some.inj hst
      simp
    · split at hst
      · next hgt => exact absurd hgt (by linarith)
      · split at hst
        · next hlt => exact absurd hlt (by linarith)
        · obtain rfl : [target] = stages := Option.some.inj hst
          simp
  · intro hnear
    rw [adjustAudioSpeedFilters] at hst
    split at hst
    · exact (Option.some.inj hst).symm
    · next h1 => exact absurd hnear h1

/-- C9 witness: factor 3 decomposes into in-range stages with the stated
properties. -/
theorem c9_witness :
    ∃ fuel stages, adjustAudioSpeedFilters fuel 3 = some stages ∧
      (∀ s ∈ stages, 1/2 ≤ s ∧ s ≤ 2) ∧
      (∃ resid, |resid - 1| ≤ 1/100 ∧ stages.prod * resid = 3) ∧
      ((1:ℚ)/2 ≤ 3 → (3:ℚ) ≤ 2 → stages.length ≤ 1) ∧
      (|(3:ℚ) - 1| ≤ 1/100 → stages = []) :=
  c9_rate_stretch 3 (by norm_num)

/-- C10: generateTTSSegments emits exactly one result per input segment,
the i-th result being the processing of the i-th segment (with its
successor as gap-extension lookahead), so the count-mismatch error
branch of generateTTSWithTiming can never fire. -/
theorem c10_one_result_per_segment (oracle : ℕ → SegOracle)
    (baseRate : ℚ) (segments : List SubtitleSegment) :
    (generateTTSSegments oracle baseRate segments).length
        = segments.length ∧
    (∀ i, (generateTTSSegments oracle baseRate segments).get? i
        = (segments.get? i).map (fun s =>
            processSegment (oracle i) baseRate s (segments.get? (i + 1)))) ∧
    ¬ (generateTTSSegments oracle baseRate segments).length
        ≠ segments.length := by
  have hlen := generateTTSSegmentsGo_length oracle baseRate segments 0
  refine ⟨hlen, ?_, fun hne => hne hlen⟩
  intro i
  have h := generateTTSSegmentsGo_get? oracle baseRate segments 0 i
  simpa using h

/-- C10 witness: a concrete one-segment run yields exactly one result. -/
theorem c10_witness :
    (generateTTSSegments (fun _ => ⟨fun _ => 1, none, true⟩) 1
      [⟨0, 1, "a"⟩]).length = 1 :=
  (c10_one_result_per_segment (fun _ => ⟨fun _ => 1, none, true⟩) 1
    [⟨0, 1, "a"⟩]).1

end Nowdub
